import Mathlib

set_option maxRecDepth 100000

/-!
Shallow embedding of the Autocycler compress pipeline (Rust sources under
`src/`) together with theorems settling the frozen claims about it.

Bytes are modelled as `Nat` (their ASCII codes); byte vectors as `List Nat`.
Fallible Rust code (`panic!`, `unwrap`, `quit_with_error`) is modelled with
`Option` / `Except`.  A few helper types live in repository files that are
not part of `src/` (`unitig.rs`, `sequence.rs`, `misc.rs`); every definition
modelled from the specification instead of the source says so in its doc
comment.
-/

namespace Autocycler

/-- ASCII codes of the DNA alphabet used throughout: `A`, `C`, `G`, `T`,
the sentinel `.` and the placeholder `N`. -/
def baseA : Nat := 65
def baseC : Nat := 67
def baseG : Nat := 71
def baseT : Nat := 84
def baseDot : Nat := 46
def baseN : Nat := 78

/-- `ALPHABET` from `kmer_graph.rs`: the four bases in order `A,C,G,T`. -/
def ALPHABET : List Nat := [baseA, baseC, baseG, baseT]

/-- Modelled from the spec: `misc.rs` (not under `src/`) provides
`reverse_complement`; per the glossary, complementation swaps `A↔T` and
`C↔G` and leaves the sentinel `.` (and any other byte) fixed, making it an
involution. -/
def complement (b : Nat) : Nat :=
  if b = baseA then baseT
  else if b = baseT then baseA
  else if b = baseC then baseG
  else if b = baseG then baseC
  else b

/-- Modelled from the spec: `reverse_complement` from `misc.rs` reverses the
byte vector and complements every base. -/
def revcomp (s : List Nat) : List Nat :=
  (s.map complement).reverse

/-- Turn a Lean string literal into its list of byte codes. -/
def strToBytes (s : String) : List Nat := s.data.map Char.toNat

/-! ## K-mer index (`kmer_graph.rs`)

`KmerGraph.kmers` is a hash map from byte slices to `Kmer` records.  The
neighbour queries only consult key membership, so the index is embedded as
the list of keys in insertion order (`insertKey` skips keys already
present, mirroring the `Entry::Occupied` branch which appends a position
but adds no new key). -/

def insertKey (K : List (List Nat)) (w : List Nat) : List (List Nat) :=
  if w ∈ K then K else K ++ [w]

/-- `KmerGraph::add_sequence`: for each window start `i` of the forward
sequence, insert the forward k-mer at `i` and the reverse k-mer at the
mirrored offset `length - i - k` of the reverse-complement sequence.
(The `Sequence` type lives in `sequence.rs`, which is not under `src/`;
modelled from the spec, `Sequence::new` as used by the k-mer tests stores
the raw bytes with `length` equal to the byte count and
`reverse_seq = revcomp(forward_seq)`.  Callers guarantee `k ≤ length`:
`load_sequences` skips shorter contigs, and `seq.length - k_size` would
underflow in Rust otherwise.) -/
def addSequence (k : Nat) (fwd : List Nat) : List (List Nat) :=
  let rev := revcomp fwd
  let n := fwd.length
  (List.range (n - k + 1)).foldl (fun K i =>
    let forwardK := (fwd.drop i).take k
    let reverseK := (rev.drop (n - i - k)).take k
    insertKey (insertKey K forwardK) reverseK) []

/-- Replace the last element of a list (the `*next_kmer.last_mut().unwrap()
= base` assignment in `next_kmers`; the list there is never empty because a
placeholder byte was just pushed). -/
def setLast : List Nat → Nat → List Nat
  | [], _ => []
  | [_], b => [b]
  | a :: x :: rest, b => a :: setLast (x :: rest) b

/-- `KmerGraph::next_kmers`: drop the first byte of `s`, push a placeholder
`N`, then for each base of `ALPHABET` in order overwrite the last byte and
collect the candidates present in the index.  Rust's `&kmer[1..]` panics on
an empty slice, hence the `Option`. -/
def nextKmers (K : List (List Nat)) (s : List Nat) : Option (List (List Nat)) :=
  if s = [] then none
  else some (ALPHABET.foldl (fun acc b =>
    let cand := setLast (s.drop 1 ++ [baseN]) b
    if cand ∈ K then acc ++ [cand] else acc) [])

/-- The k-mer index built from the 20 bp test sequence with k = 4
(`test_next_kmers` in `kmer_graph.rs`). -/
def testKmerIndex : List (List Nat) :=
  addSequence 4 (strToBytes "ACGACTGACATCAGCACTGA")

/-! ## Unitig graph (`unitig_graph.rs`)

A `Unitig` (struct from `unitig.rs`, a repository file not under `src/`;
its fields are modelled from the spec's data model, §3) carries a number,
the two strand sequences, four adjacency lists and the positions on each
strand.  Adjacency entries are `(unitig number, target strand)` pairs: the
Rust `UnitigStrand` holds an `Rc` handle, but every operation under `src/`
compares handles through `number`/`strand` only, so the pair is the
faithful abstraction.  Positions (from `position.rs`, also missing) are
`(seq id, path strand, offset)` triples per the spec. -/

structure Position where
  seqId : Nat
  strand : Bool
  pos : Nat
deriving DecidableEq, Repr

structure Unitig where
  number : Nat
  forwardSeq : List Nat
  reverseSeq : List Nat
  forwardNext : List (Nat × Bool)
  forwardPrev : List (Nat × Bool)
  reverseNext : List (Nat × Bool)
  reversePrev : List (Nat × Bool)
  forwardPositions : List Position
  reversePositions : List Position
deriving DecidableEq, Repr

/-- `Unitig::length`: the number of bases on the forward strand. -/
def Unitig.length (u : Unitig) : Nat := u.forwardSeq.length

/-- `Unitig::get_seq(strand)`: the sequence on the requested strand.
(In `unitig.rs`, not under `src/`; modelled from the spec: `forward_seq`
and `reverse_seq` are the two strand views, the extra `(0, 0)` arguments
seen at call sites trim nothing.) -/
def Unitig.getSeq (u : Unitig) (strand : Bool) : List Nat :=
  if strand then u.forwardSeq else u.reverseSeq

structure UnitigGraph where
  unitigs : List Unitig
  kSize : Nat
deriving DecidableEq, Repr

/-- `unitig_index` lookup: number → unitig (unitig numbers are unique
within a graph per the spec's data model, so `find?` is the map). -/
def lookupUnitig (g : UnitigGraph) (n : Nat) : Option Unitig :=
  g.unitigs.find? (fun u => u.number = n)

/-- Mutation through the index: `borrow_mut` on the unitig numbered `n`
becomes a functional update of the unitigs carrying that number. -/
def updateUnitig (g : UnitigGraph) (n : Nat) (f : Unitig → Unitig) : UnitigGraph :=
  { g with unitigs := g.unitigs.map (fun u => if u.number = n then f u else u) }

/-- Select one of the four adjacency lists: `isNext` picks next vs prev,
`strand` picks the forward vs reverse variant. -/
def adjList (u : Unitig) : Bool → Bool → List (Nat × Bool)
  | true, true => u.forwardNext
  | true, false => u.reverseNext
  | false, true => u.forwardPrev
  | false, false => u.reversePrev

/-- Append an entry to one of the four adjacency lists (a `Vec::push`). -/
def pushAdj (isNext strand : Bool) (e : Nat × Bool) (u : Unitig) : Unitig :=
  match isNext, strand with
  | true, true => { u with forwardNext := u.forwardNext ++ [e] }
  | true, false => { u with reverseNext := u.reverseNext ++ [e] }
  | false, true => { u with forwardPrev := u.forwardPrev ++ [e] }
  | false, false => { u with reversePrev := u.reversePrev ++ [e] }

/-- Remove every occurrence of an entry from one of the four adjacency
lists (the collect-indices-then-remove loops of `delete_link_one_way`). -/
def removeAdj (isNext strand : Bool) (e : Nat × Bool) (u : Unitig) : Unitig :=
  match isNext, strand with
  | true, true => { u with forwardNext := u.forwardNext.filter (· ≠ e) }
  | true, false => { u with reverseNext := u.reverseNext.filter (· ≠ e) }
  | false, true => { u with forwardPrev := u.forwardPrev.filter (· ≠ e) }
  | false, false => { u with reversePrev := u.reversePrev.filter (· ≠ e) }

/-- `UnitigGraph::create_link_one_way` (signed numbers, negative =
reverse strand).  The two `unwrap`s on the index become the `Option`. -/
def createLinkOneWay (g : UnitigGraph) (startNum endNum : Int) : Option UnitigGraph :=
  let startStrand : Bool := 0 < startNum
  let endStrand : Bool := 0 < endNum
  let sn := startNum.natAbs
  let en := endNum.natAbs
  match lookupUnitig g sn, lookupUnitig g en with
  | some _, some _ =>
      some (updateUnitig (updateUnitig g sn (pushAdj true startStrand (en, endStrand)))
              en (pushAdj false endStrand (sn, startStrand)))
  | _, _ => none

/-- `UnitigGraph::create_link`: the one-way link plus its mirror, unless
`start_num = -end_num` (self-mirror). -/
def createLink (g : UnitigGraph) (startNum endNum : Int) : Option UnitigGraph :=
  (createLinkOneWay g startNum endNum).bind (fun g1 =>
    if startNum = -endNum then some g1 else createLinkOneWay g1 (-endNum) (-startNum))

/-- `UnitigGraph::delete_link_one_way`.  Exactly as in the source: the
next-list of the start unitig is selected by `start_strand` and purged of
`(end_num, end_strand)`; the prev-list of the end unitig is selected by
`start_strand` as well (the source reads `if start_strand { &end.forward_prev }
else { &end.reverse_prev }`) and purged of `(start_num, start_strand)`. -/
def deleteLinkOneWay (g : UnitigGraph) (startNum endNum : Int) : Option UnitigGraph :=
  let startStrand : Bool := 0 < startNum
  let endStrand : Bool := 0 < endNum
  let sn := startNum.natAbs
  let en := endNum.natAbs
  match lookupUnitig g sn, lookupUnitig g en with
  | some _, some _ =>
      some (updateUnitig (updateUnitig g sn (removeAdj true startStrand (en, endStrand)))
              en (removeAdj false startStrand (sn, startStrand)))
  | _, _ => none

/-- `UnitigGraph::delete_link`: the one-way deletion plus its mirror. -/
def deleteLink (g : UnitigGraph) (startNum endNum : Int) : Option UnitigGraph :=
  (deleteLinkOneWay g startNum endNum).bind (fun g1 =>
    deleteLinkOneWay g1 (-endNum) (-startNum))

/-- `UnitigGraph::link_exists`: the link is present in the start unitig's
next-list for the given strand. -/
def linkExists (g : UnitigGraph) (aNum : Nat) (aStrand : Bool) (bNum : Nat) (bStrand : Bool) : Bool :=
  match lookupUnitig g aNum with
  | some a => (if aStrand then a.forwardNext else a.reverseNext).any
      (fun e => e.1 = bNum && e.2 = bStrand)
  | none => false

/-- `UnitigGraph::link_exists_prev`: the link is present in the end
unitig's prev-list for the given strand. -/
def linkExistsPrev (g : UnitigGraph) (aNum : Nat) (aStrand : Bool) (bNum : Nat) (bStrand : Bool) : Bool :=
  match lookupUnitig g bNum with
  | some b => (if bStrand then b.forwardPrev else b.reversePrev).any
      (fun e => e.1 = aNum && e.2 = aStrand)
  | none => false

/-- `UnitigGraph::check_links` as a boolean: `true` iff none of its
panics fire. -/
def checkLinks (g : UnitigGraph) : Bool :=
  g.unitigs.all fun a =>
    (a.forwardNext.all fun b =>
      linkExists g a.number true b.1 b.2 && linkExistsPrev g a.number true b.1 b.2 &&
      linkExists g b.1 (!b.2) a.number false && linkExistsPrev g b.1 (!b.2) a.number false &&
      (lookupUnitig g b.1).isSome) &&
    (a.reverseNext.all fun b =>
      linkExists g a.number false b.1 b.2 && linkExistsPrev g a.number false b.1 b.2 &&
      linkExists g b.1 (!b.2) a.number true && linkExistsPrev g b.1 (!b.2) a.number true &&
      (lookupUnitig g b.1).isSome) &&
    (a.forwardPrev.all fun b =>
      linkExists g b.1 b.2 a.number true && linkExistsPrev g b.1 b.2 a.number true &&
      linkExists g a.number false b.1 (!b.2) && linkExistsPrev g a.number false b.1 (!b.2) &&
      (lookupUnitig g b.1).isSome) &&
    (a.reversePrev.all fun b =>
      linkExists g b.1 b.2 a.number false && linkExistsPrev g b.1 b.2 a.number false &&
      linkExists g a.number true b.1 (!b.2) && linkExistsPrev g a.number true b.1 (!b.2) &&
      (lookupUnitig g b.1).isSome)

/-- The invariant of claim C4: every edge appears exactly once per
endpoint-list, i.e. none of the four adjacency lists of any unitig holds a
duplicate entry. -/
def linksOncePer (g : UnitigGraph) : Prop :=
  ∀ u ∈ g.unitigs, ∀ k s : Bool, (adjList u k s).Nodup

instance : DecidablePred linksOncePer := fun g => by
  unfold linksOncePer; infer_instance

/-- A unitig with the given number, 1 bp of sequence and no links or
positions (for concrete test graphs). -/
def mkBareUnitig (n : Nat) : Unitig :=
  { number := n, forwardSeq := [baseA], reverseSeq := [baseT],
    forwardNext := [], forwardPrev := [], reverseNext := [], reversePrev := [],
    forwardPositions := [], reversePositions := [] }

/-- Two disconnected unitigs numbered 1 and 2 (concrete input for the
link-mutation claims). -/
def twoUnitigGraph : UnitigGraph := ⟨[mkBareUnitig 1, mkBareUnitig 2], 9⟩

/-- Two unitigs with the single edge 1+ → 2+ and its mirror 2- → 1-,
wired once in every endpoint list (concrete input for claim C4). -/
def oneEdgeGraph : UnitigGraph :=
  ⟨[{ mkBareUnitig 1 with forwardNext := [(2, true)], reversePrev := [(2, false)] },
    { mkBareUnitig 2 with forwardPrev := [(1, true)], reverseNext := [(1, false)] }], 9⟩

/-! ## Unitig local sequence operations

These live in `unitig.rs`, which is not under `src/`.  Modelled from the
spec §4.D: trim or extend the named end of `forward_seq` and keep
`reverse_seq` as the mirror.  The spec does not describe any position
bookkeeping for them, and no claim settled here depends on it, so the
positions are carried through unchanged. -/

/-- Modelled from the spec: `Unitig::remove_seq_from_start(n)`. -/
def removeSeqFromStart (u : Unitig) (n : Nat) : Unitig :=
  { u with forwardSeq := u.forwardSeq.drop n,
           reverseSeq := u.reverseSeq.take (u.reverseSeq.length - n) }

/-- Modelled from the spec: `Unitig::remove_seq_from_end(n)`. -/
def removeSeqFromEnd (u : Unitig) (n : Nat) : Unitig :=
  { u with forwardSeq := u.forwardSeq.take (u.forwardSeq.length - n),
           reverseSeq := u.reverseSeq.drop n }

/-- Modelled from the spec: `Unitig::add_seq_to_start(bytes)`. -/
def addSeqToStart (u : Unitig) (s : List Nat) : Unitig :=
  { u with forwardSeq := s ++ u.forwardSeq,
           reverseSeq := u.reverseSeq ++ revcomp s }

/-- Modelled from the spec: `Unitig::add_seq_to_end(bytes)`. -/
def addSeqToEnd (u : Unitig) (s : List Nat) : Unitig :=
  { u with forwardSeq := u.forwardSeq ++ s,
           reverseSeq := revcomp s ++ u.reverseSeq }

/-! ## Structural simplification (`graph_simplification.rs`) -/

/-- The inner `while !seq.starts_with(&prefix)` loop of
`get_common_start_seq`: pop bytes off the end of the running prefix until
it is a prefix of `s` (reaching empty also stops, since the empty list is
a prefix of everything, matching the source's early `return Vec::new()`). -/
def chopAux (s : List Nat) : List Nat → List Nat
  | [] => []
  | revPref@(_ :: rest) =>
    if revPref.reverse.isPrefixOf s then revPref.reverse
    else chopAux s rest

def chopToPref (pref s : List Nat) : List Nat := chopAux s pref.reverse

/-- `get_common_start_seq`: fold the chopping loop over every sequence,
starting from the first one (the source also revisits `seqs[0]`, which is
harmless). -/
def getCommonStartSeq (seqs : List (List Nat)) : List Nat :=
  match seqs with
  | [] => []
  | s0 :: _ => seqs.foldl chopToPref s0

/-- `get_common_end_seq`: reverse every sequence, compute the common
start, reverse the result. -/
def getCommonEndSeq (seqs : List (List Nat)) : List Nat :=
  (getCommonStartSeq (seqs.map List.reverse)).reverse

/-- The guard-2 loop of `shift_sequence_1`:
`while let Some(_) = destination.forward_positions.iter().find(|p| p.pos <=
common_seq.len() as u32 + half_k) { common_seq.remove(0); }`.
`none` models the `Vec::remove(0)` panic on an already-empty vector. -/
def guardLoopStart (posList : List Nat) (halfK : Nat) : List Nat → Option (List Nat)
  | [] => if posList.any (fun p => p ≤ 0 + halfK) then none else some []
  | c :: cs =>
    if posList.any (fun p => p ≤ (c :: cs).length + halfK) then guardLoopStart posList halfK cs
    else some (c :: cs)

/-- The guard loop of `shift_sequence_2` (pops from the back via
`common_seq.pop()`, which returns `None` on empty — but the loop condition
would then still hold forever, so emptiness is modelled as `none` too;
see the note at `shiftSequence2`). -/
def guardLoopEndAux (posList : List Nat) (halfK : Nat) : List Nat → Option (List Nat)
  | [] => if posList.any (fun p => p ≤ 0 + halfK) then none else some []
  | revCommon@(_ :: rest) =>
    if posList.any (fun p => p ≤ revCommon.length + halfK) then
      guardLoopEndAux posList halfK rest
    else some revCommon.reverse

def guardLoopEnd (posList : List Nat) (halfK : Nat) (common : List Nat) :
    Option (List Nat) :=
  guardLoopEndAux posList halfK common.reverse

/-- `shift_sequence_1(sources, destination, half_k)`: remove the common
end sequence from the sources and prepend it to the destination.  Result:
`(updated sources, updated destination, bytes shifted)`; `none` models a
panic.  Sources are handled as values (the claims this settles concern
calls where no source aliases the destination). -/
def shiftSequence1 (sources : List (Unitig × Bool)) (dest : Unitig) (halfK : Nat) :
    Option (List (Unitig × Bool) × Unitig × Nat) :=
  let common0 := getCommonEndSeq (sources.map (fun us => us.1.getSeq us.2))
  if common0.length = 0 then some (sources, dest, 0)
  else
    let leaveOneBp := sources.any (fun us => us.1.length = common0.length)
    let common1 := if leaveOneBp then common0.drop 1 else common0
    match guardLoopStart (dest.forwardPositions.map Position.pos) halfK common1 with
    | none => none
    | some common2 =>
      if common2.length = 0 then some (sources, dest, 0)
      else
        some (sources.map (fun us =>
            (if us.2 then removeSeqFromEnd us.1 common2.length
             else removeSeqFromStart us.1 common2.length, us.2)),
          addSeqToStart dest common2, common2.length)

/-- `shift_sequence_2(destination, sources, half_k)`: the symmetric
out-shift (common start sequence, appended to the destination's end,
guarded by the destination's `reverse_positions`).  In the source this
loop's `common_seq.pop()` on an empty vector returns `None` and leaves the
loop condition true forever (an infinite loop rather than a panic); both
failure modes are modelled as `none`. -/
def shiftSequence2 (dest : Unitig) (sources : List (Unitig × Bool)) (halfK : Nat) :
    Option (List (Unitig × Bool) × Unitig × Nat) :=
  let common0 := getCommonStartSeq (sources.map (fun us => us.1.getSeq us.2))
  if common0.length = 0 then some (sources, dest, 0)
  else
    let leaveOneBp := sources.any (fun us => us.1.length = common0.length)
    let common1 := if leaveOneBp then common0.dropLast else common0
    match guardLoopEnd (dest.reversePositions.map Position.pos) halfK common1 with
    | none => none
    | some common2 =>
      if common2.length = 0 then some (sources, dest, 0)
      else
        some (sources.map (fun us =>
            (if us.2 then removeSeqFromStart us.1 common2.length
             else removeSeqFromEnd us.1 common2.length, us.2)),
          addSeqToEnd dest common2, common2.length)

/-! ## Path queries (`unitig_graph.rs`) -/

/-- `reverse_path`: reverse the order and flip every strand. -/
def reversePath (path : List (Nat × Bool)) : List (Nat × Bool) :=
  path.reverse.map (fun e => (e.1, !e.2))

/-- `UnitigGraph::get_sequence_from_path`: concatenate each path entry's
strand sequence; the `unwrap` on the index lookup becomes the `Option`. -/
def getSequenceFromPath (g : UnitigGraph) : List (Nat × Bool) → Option (List Nat)
  | [] => some []
  | e :: rest =>
    (lookupUnitig g e.1).bind fun u =>
      (getSequenceFromPath g rest).map fun tail => u.getSeq e.2 ++ tail

/-! ## GFA parsing (`unitig_graph.rs::from_gfa_lines`)

Lines are byte vectors (Rust strings are UTF-8 byte buffers; GFA content
is ASCII).  Fatal exits (`quit_with_error`) and panics
(`expect`/`unwrap`/`assert`) are both modelled as `Except.error`. -/

/-- Byte codes of the ASCII characters the GFA grammar uses. -/
def tabByte : Nat := 9
def newlineByte : Nat := 10
def plusByte : Nat := 43
def minusByte : Nat := 45

/-- Rust `str::split(sep)`: split into fields, keeping empty fields, one
more field than separators. -/
def splitOnByte (sep : Nat) : List Nat → List (List Nat)
  | [] => [[]]
  | c :: rest =>
    match splitOnByte sep rest with
    | [] => [[c]]
    | g :: gs => if c = sep then [] :: g :: gs else (c :: g) :: gs

/-- `line.trim_end_matches(newline)`: strip every trailing newline. -/
def trimNewlines (s : List Nat) : List Nat :=
  (s.reverse.dropWhile (fun c => c = newlineByte)).reverse

def isDigitByte (c : Nat) : Bool := 48 ≤ c && c ≤ 57

def digitsVal (s : List Nat) : Nat := s.foldl (fun acc c => acc * 10 + (c - 48)) 0

/-- Rust `str::parse::<u32>`: optional leading `+`, at least one ASCII
digit, value below `2^32`. -/
def parseU32 (s : List Nat) : Option Nat :=
  let t := match s with
    | c :: rest => if c = plusByte then rest else s
    | [] => s
  if t.isEmpty then none
  else if t.all isDigitByte then
    if digitsVal t < 4294967296 then some (digitsVal t) else none
  else none

/-- Rust `str::parse::<u16>`. -/
def parseU16 (s : List Nat) : Option Nat :=
  let t := match s with
    | c :: rest => if c = plusByte then rest else s
    | [] => s
  if t.isEmpty then none
  else if t.all isDigitByte then
    if digitsVal t < 65536 then some (digitsVal t) else none
  else none

/-- `read_gfa_header_line`: scan the header fields for the first
`KM:i:<u32>` tag that parses; `none` models the `quit_with_error`. -/
def readGfaHeaderLine (parts : List (List Nat)) : Option Nat :=
  parts.findSome? (fun p =>
    if (strToBytes "KM:i:").isPrefixOf p then parseU32 (p.drop 5) else none)

/-- Modelled from the spec: `Unitig::from_segment_line` lives in
`unitig.rs` (not under `src/`); per §6 a segment line is
`S\t<num>\t<forward_seq>\tDP:f:<depth>`.  The unitig number and forward
sequence are parsed (failures panic, hence `none`), the reverse strand is
the reverse complement, and the floating-point depth is not modelled (no
claim depends on it). -/
def unitigFromSegmentLine (line : List Nat) : Option Unitig :=
  let parts := splitOnByte tabByte line
  match parts.get? 1, parts.get? 2 with
  | some numStr, some seqStr =>
    (parseU32 numStr).map fun n =>
      { number := n, forwardSeq := seqStr,
        reverseSeq := revcomp seqStr,
        forwardNext := [], forwardPrev := [], reverseNext := [], reversePrev := [],
        forwardPositions := [], reversePositions := [] }
  | _, _ => none

structure GfaScanState where
  kSize : Nat
  unitigs : List Unitig
  linkLines : List (List Nat)
  pathLines : List (List Nat)
deriving Repr

/-- The line-dispatch loop of `from_gfa_lines`: split each line on tabs
(after trimming trailing newlines), handle `H` and `S` lines immediately,
collect `L` and `P` lines, silently skip everything else. -/
def scanGfaLines : List (List Nat) → GfaScanState → Except String GfaScanState
  | [], st => .ok st
  | line :: rest, st =>
    let parts := splitOnByte tabByte (trimNewlines line)
    if parts.head? = some (strToBytes "H") then
      match readGfaHeaderLine parts with
      | some k => scanGfaLines rest { st with kSize := k }
      | none => .error "could not find a valid k-mer tag in the GFA header line"
    else if parts.head? = some (strToBytes "S") then
      match unitigFromSegmentLine line with
      | some u => scanGfaLines rest { st with unitigs := st.unitigs ++ [u] }
      | none => .error "error parsing GFA segment line"
    else if parts.head? = some (strToBytes "L") then
      scanGfaLines rest { st with linkLines := st.linkLines ++ [line] }
    else if parts.head? = some (strToBytes "P") then
      scanGfaLines rest { st with pathLines := st.pathLines ++ [line] }
    else scanGfaLines rest st

/-- `build_links_from_gfa`: reject short lines and non-`0M` overlaps,
resolve both segments through the index, push the next entry under the
first strand and the prev entry under the second strand. -/
def buildLinksFromGfa (g : UnitigGraph) : List (List Nat) → Except String UnitigGraph
  | [] => .ok g
  | line :: rest =>
    let parts := splitOnByte tabByte line
    if parts.length < 6 ∨ parts.get? 5 ≠ some (strToBytes "0M") then
      .error "non-zero overlap found on the GFA link line"
    else
      match parseU32 (parts.getD 1 []), parseU32 (parts.getD 3 []) with
      | some seg1, some seg2 =>
        let strand1 : Bool := parts.getD 2 [] = strToBytes "+"
        let strand2 : Bool := parts.getD 4 [] = strToBytes "+"
        match lookupUnitig g seg1, lookupUnitig g seg2 with
        | some _, some _ =>
          buildLinksFromGfa
            (updateUnitig (updateUnitig g seg1 (pushAdj true strand1 (seg2, strand2)))
              seg2 (pushAdj false strand2 (seg1, strand1))) rest
        | _, _ => .error "link refers to nonexistent unitig"
      | _, _ => .error "error parsing segment as integer"

/-- `parse_unitig_path`, one comma-separated item at a time: an item ends
in `+` or `-` (else panic) and its front parses as a `u32`. -/
def parsePathItems : List (List Nat) → Option (List (Nat × Bool))
  | [] => some []
  | item :: rest =>
    let strand? : Option Bool :=
      if item.getLast? = some plusByte then some true
      else if item.getLast? = some minusByte then some false
      else none
    strand?.bind fun st =>
      (parseU32 item.dropLast).bind fun n =>
        (parsePathItems rest).map fun l => (n, st) :: l

def parseUnitigPath (s : List Nat) : Option (List (Nat × Bool)) :=
  parsePathItems (splitOnByte 44 s)

/-- The loop of `add_positions_from_path`: append a `Position` to the
path-entry's unitig on the entry's strand, advancing the offset by the
unitig's length.  Returns the final offset for the length assertion. -/
def addPositionsLoop (pathStrand : Bool) (seqId : Nat) :
    UnitigGraph → List (Nat × Bool) → Nat → Except String (UnitigGraph × Nat)
  | g, [], pos => .ok (g, pos)
  | g, e :: rest, pos =>
    match lookupUnitig g e.1 with
    | some u =>
      addPositionsLoop pathStrand seqId
        (updateUnitig g e.1 (fun v =>
          if e.2 then
            { v with forwardPositions := v.forwardPositions ++ [⟨seqId, pathStrand, pos⟩] }
          else
            { v with reversePositions := v.reversePositions ++ [⟨seqId, pathStrand, pos⟩] }))
        rest (pos + u.length)
    | none => .error "unitig not found in unitig index"

/-- `add_positions_from_path` with its `assert!(pos == length)`. -/
def addPositionsFromPath (g : UnitigGraph) (path : List (Nat × Bool))
    (pathStrand : Bool) (seqId : Nat) (length : Nat) : Except String UnitigGraph :=
  match addPositionsLoop pathStrand seqId g path 0 with
  | .ok (g', pos) => if pos = length then .ok g' else .error "Position calculation mismatch"
  | .error e => .error e

/-- Modelled from the spec: `Sequence::new_without_seq` (in `sequence.rs`,
not under `src/`) keeps only the metadata of a path's sequence. -/
structure SequenceRec where
  id : Nat
  filename : List Nat
  header : List Nat
  length : Nat
  cluster : Nat
deriving DecidableEq, Repr

/-- `build_paths_from_gfa`: parse a `P` line's sequence id, scan the
remaining fields (the path field included, as in the source) for
`LN:i:`/`FN:Z:`/`HD:Z:`/`CL:i:` tags (last occurrence wins, any
unparsable occurrence panics), reject missing required tags, parse the
path and register its positions on both strands. -/
def buildPathsFromGfa (g : UnitigGraph) :
    List (List Nat) → Except String (UnitigGraph × List SequenceRec)
  | [] => .ok (g, [])
  | line :: rest =>
    let parts := splitOnByte tabByte line
    match parseU16 (parts.getD 1 []) with
    | none => .error "error parsing sequence ID as integer"
    | some seqId =>
      let tags := parts.drop 2
      match (tags.filterMap (fun p =>
          if (strToBytes "LN:i:").isPrefixOf p then some (p.drop 5) else none)).mapM parseU32 with
      | none => .error "error parsing length"
      | some lens =>
        match (tags.filterMap (fun p =>
            if (strToBytes "CL:i:").isPrefixOf p then some (p.drop 5) else none)).mapM parseU16 with
        | none => .error "error parsing cluster"
        | some clusters =>
          let filename? := (tags.filterMap (fun p =>
            if (strToBytes "FN:Z:").isPrefixOf p then some (p.drop 5) else none)).getLast?
          let header? := (tags.filterMap (fun p =>
            if (strToBytes "HD:Z:").isPrefixOf p then some (p.drop 5) else none)).getLast?
          match lens.getLast?, filename?, header? with
          | some len, some fn, some hd =>
            match parseUnitigPath (parts.getD 2 []) with
            | none => .error "invalid path strand"
            | some path =>
              match addPositionsFromPath g path true seqId len with
              | .error e => .error e
              | .ok g1 =>
                match addPositionsFromPath g1 (reversePath path) false seqId len with
                | .error e => .error e
                | .ok g2 =>
                  match buildPathsFromGfa g2 rest with
                  | .ok (g3, seqs) =>
                    .ok (g3, ⟨seqId, fn, hd, len, (clusters.getLast?).getD 0⟩ :: seqs)
                  | .error e => .error e
          | _, _, _ => .error "missing required tag in GFA path line"

/-- `UnitigGraph::from_gfa_lines`: scan the lines, then build links, then
paths, then run `check_links` (its panics become an error). -/
def fromGfaLines (lines : List (List Nat)) : Except String (UnitigGraph × List SequenceRec) :=
  match scanGfaLines lines ⟨0, [], [], []⟩ with
  | .error e => .error e
  | .ok st =>
    match buildLinksFromGfa ⟨st.unitigs, st.kSize⟩ st.linkLines with
    | .error e => .error e
    | .ok g1 =>
      match buildPathsFromGfa g1 st.pathLines with
      | .error e => .error e
      | .ok (g2, seqs) =>
        if checkLinks g2 then .ok (g2, seqs) else .error "invalid link in graph"

/-- A GFA line list contains a header line carrying no valid `KM:i:` tag. -/
def hasBadHeaderLine (lines : List (List Nat)) : Prop :=
  ∃ line ∈ lines,
    (splitOnByte tabByte (trimNewlines line)).head? = some (strToBytes "H") ∧
    readGfaHeaderLine (splitOnByte tabByte (trimNewlines line)) = none

instance : DecidablePred hasBadHeaderLine := fun lines => by
  unfold hasBadHeaderLine; infer_instance

/-! ## Loading sequences (`compress.rs::load_sequences`)

The contig-selection loop: contigs arrive in load order (assemblies in
directory order, contigs in file order — flattened here), a contig
shorter than `k` is skipped with `continue`, every kept contig gets the
next id starting from 1, and the 32768th kept contig is a fatal error.
The subsequent end-repair step (modelled separately below) rewrites only
sentinel bytes in place and changes neither ids nor the list length. -/

def loadSeqLoop (k : Nat) : List (List Nat) → Nat → Except String (List (Nat × List Nat))
  | [], _ => .ok []
  | c :: rest, seqId =>
    if c.length < k then loadSeqLoop k rest seqId
    else if 32767 < seqId + 1 then .error "no more than 32767 input sequences are allowed"
    else (loadSeqLoop k rest (seqId + 1)).map (fun l => (seqId + 1, c) :: l)

def loadSequences (k : Nat) (contigs : List (List Nat)) :
    Except String (List (Nat × List Nat)) :=
  loadSeqLoop k contigs 0

/-! ## Sequence end repair (`compress.rs::sequence_end_repair` and
`find_best_match`)

The regex built from the first (or last) `k-1` bytes of a sequence
consists of the bytes `A,C,G,T` and the sentinel `.`, which in a regex
matches any byte (the sequences contain no newline).  A pattern byte
therefore matches a subject byte iff it is the sentinel or equal to it. -/

/-- The pattern matches the subject at offset `i`. -/
def matchesAt (pat s : List Nat) (i : Nat) : Bool :=
  decide (i + pat.length ≤ s.length) &&
  (List.range pat.length).all
    (fun j => pat.getD j 0 == baseDot || pat.getD j 0 == s.getD (i + j) 0)

/-- All offsets at which the pattern matches. -/
def matchStarts (pat s : List Nat) : List Nat :=
  (List.range (s.length + 1)).filter (matchesAt pat s)

/-- `Regex::find_iter` keeps leftmost matches and resumes after each
match's end (non-overlapping). -/
def deOverlap (patLen : Nat) (starts : List Nat) : List Nat :=
  (starts.foldl
    (fun acc i => if acc.2 ≤ i then (acc.1 ++ [i], i + patLen) else acc)
    (([] : List Nat), 0)).1

/-- The matched byte slices produced by `find_iter` on one subject. -/
def findIter (pat s : List Nat) : List (List Nat) :=
  (deOverlap pat.length (matchStarts pat s)).map (fun i => (s.drop i).take pat.length)

/-- The `all_matches` vector: every `find_iter` hit over every subject,
in subject order. -/
def allMatches (pat : List Nat) (allSeqs : List (List Nat)) : List (List Nat) :=
  (allSeqs.map (findIter pat)).flatten

def dotCount (m : List Nat) : Nat := m.countP (fun c => c = baseDot)

/-- Lexicographic comparison of byte vectors (Rust `Vec::<u8>::cmp`). -/
def lexCmp : List Nat → List Nat → Ordering
  | [], [] => .eq
  | [], _ :: _ => .lt
  | _ :: _, [] => .gt
  | a :: as_, b :: bs =>
    match compare a b with
    | .eq => lexCmp as_ bs
    | o => o

/-- The comparator of `find_best_match`: fewest dots, then highest
frequency among the matches, then lexicographically smallest. -/
def cmpMatch (cands : List (List Nat)) (a b : List Nat) : Ordering :=
  match compare (dotCount a) (dotCount b) with
  | .eq =>
    match compare (cands.count b) (cands.count a) with
    | .eq => lexCmp a b
    | o => o
  | o => o

/-- `find_best_match`: `Iterator::min_by` (ties keep the later element);
`none` models the `expect` panic on an empty candidate list. -/
def findBestMatch (cands : List (List Nat)) : Option (List Nat) :=
  cands.foldl
    (fun acc m =>
      match acc with
      | none => some m
      | some best => if cmpMatch cands m best = .gt then some best else some m)
    none

/-- One iteration of the parallel loop in `sequence_end_repair`: both
regexes are built from the original sequence, the start splice happens
first, the end splice second (the regions are disjoint because padded
sequences are longer than `2(k-1)`). -/
def sequenceEndRepairOne (allSeqs : List (List Nat)) (n : Nat) (s : List Nat) :
    Option (List Nat) :=
  let startPat := s.take n
  let endPat := s.drop (s.length - n)
  (findBestMatch (allMatches startPat allSeqs)).bind fun best1 =>
    let s1 := best1 ++ s.drop n
    (findBestMatch (allMatches endPat allSeqs)).map fun best2 =>
      s1.take (s1.length - n) ++ best2

/-- `Option`-valued map over a list (the rayon `par_iter_mut` loop runs
each sequence independently against the snapshot `all_seqs`, so the
sequential map over the snapshot is its exact semantics). -/
def mapOption (f : α → Option β) : List α → Option (List β)
  | [] => some []
  | a :: l => (f a).bind fun b => (mapOption f l).map fun bs => b :: bs

/-- `sequence_end_repair` over the forward sequences: the snapshot
`all_seqs` holds every sequence's forward and reverse-complement bytes. -/
def sequenceEndRepair (seqs : List (List Nat)) (n : Nat) : Option (List (List Nat)) :=
  let allSeqs := (seqs.map (fun s => [s, revcomp s])).flatten
  mapOption (sequenceEndRepairOne allSeqs n) seqs


/-! ## Concrete inputs used by the claim theorems -/

/-- Two 2 bp unitigs ending in the same byte (exclusive inputs for the
shift claims). -/
def shiftSrcCA : Unitig :=
  { mkBareUnitig 11 with
    forwardSeq := [baseC, baseA],
    reverseSeq := [baseT, baseG] }

def shiftSrcGA : Unitig :=
  { mkBareUnitig 12 with
    forwardSeq := [baseG, baseA],
    reverseSeq := [baseT, baseC] }

/-- A 1 bp destination unitig holding a forward position at offset 1
(below `half_k`), the configuration that drives guard 2 of
`shift_sequence_1` into emptying the common sequence. -/
def shiftDestLowPos : Unitig :=
  { mkBareUnitig 10 with
    forwardSeq := [baseT],
    reverseSeq := [baseA],
    forwardPositions := [⟨1, true, 1⟩] }

/-- Two 3 bp source unitigs sharing the 2 bp suffix `AT` (for the C6
witness). -/
def shiftSrcCAT : Unitig :=
  { mkBareUnitig 21 with
    forwardSeq := strToBytes "CAT",
    reverseSeq := strToBytes "ATG" }

def shiftSrcGAT : Unitig :=
  { mkBareUnitig 22 with
    forwardSeq := strToBytes "GAT",
    reverseSeq := strToBytes "ATC" }

/-! ## Helper lemmas -/

theorem complement_involutive (b : Nat) : complement (complement b) = b := by
  unfold complement
  by_cases hA : b = baseA
  · simp [hA, baseA, baseT, baseC, baseG]
  · by_cases hT : b = baseT
    · simp [hA, hT, baseA, baseT, baseC, baseG]
    · by_cases hC : b = baseC
      · simp [hA, hT, hC, baseA, baseT, baseC, baseG]
      · by_cases hG : b = baseG
        · simp [hA, hT, hC, hG, baseA, baseT, baseC, baseG]
        · simp [hA, hT, hC, hG]

theorem revcomp_involutive (s : List Nat) : revcomp (revcomp s) = s := by
  unfold revcomp
  rw [List.map_reverse, List.reverse_reverse, List.map_map]
  have : (complement ∘ complement) = id := by
    funext b; exact complement_involutive b
  rw [this, List.map_id]

theorem revcomp_append (s t : List Nat) :
    revcomp (s ++ t) = revcomp t ++ revcomp s := by
  unfold revcomp
  rw [List.map_append, List.reverse_append]

theorem setLast_append_singleton (t : List Nat) (x b : Nat) :
    setLast (t ++ [x]) b = t ++ [b] := by
  induction t with
  | nil => rfl
  | cons a t ih =>
    cases t with
    | nil => rfl
    | cons y t' => exact congrArg (List.cons a) ih

theorem adjList_pushAdj_same (u : Unitig) (k s : Bool) (e : Nat × Bool) :
    adjList (pushAdj k s e u) k s = adjList u k s ++ [e] := by
  cases k <;> cases s <;> rfl

theorem adjList_pushAdj_ne (u : Unitig) (k s k' s' : Bool) (e : Nat × Bool)
    (h : ¬(k = k' ∧ s = s')) :
    adjList (pushAdj k s e u) k' s' = adjList u k' s' := by
  cases k <;> cases s <;> cases k' <;> cases s' <;>
    first
    | rfl
    | exact absurd ⟨rfl, rfl⟩ h

theorem number_pushAdj (u : Unitig) (k s : Bool) (e : Nat × Bool) :
    (pushAdj k s e u).number = u.number := by
  cases k <;> cases s <;> rfl

theorem find?_number_map_isSome (l : List Unitig) (h : Unitig → Unitig)
    (hh : ∀ u, (h u).number = u.number) (n : Nat) :
    (List.find? (fun u => u.number = n) (l.map h)).isSome
      = (List.find? (fun u => u.number = n) l).isSome := by
  induction l with
  | nil => rfl
  | cons u l ih =>
    simp only [List.map_cons, List.find?_cons, hh u]
    cases hd : decide (u.number = n) with
    | true => rfl
    | false => exact ih

theorem lookupUnitig_updateUnitig_isSome (g : UnitigGraph) (m n : Nat)
    (f : Unitig → Unitig) (hf : ∀ u, (f u).number = u.number) :
    (lookupUnitig (updateUnitig g m f) n).isSome = (lookupUnitig g n).isSome := by
  unfold lookupUnitig updateUnitig
  exact find?_number_map_isSome g.unitigs _
    (fun u => by by_cases hm : u.number = m <;> simp [hm, hf u]) n

theorem linksOncePer_updateUnitig_push (g : UnitigGraph) (n : Nat) (k s : Bool)
    (e : Nat × Bool) (hprop : linksOncePer g)
    (habs : ∀ u ∈ g.unitigs, u.number = n → e ∉ adjList u k s) :
    linksOncePer (updateUnitig g n (pushAdj k s e)) := by
  intro u' hu' k' s'
  simp only [updateUnitig, List.mem_map] at hu'
  obtain ⟨u, hu, rfl⟩ := hu'
  by_cases hn : u.number = n
  · rw [if_pos hn]
    by_cases hks : k = k' ∧ s = s'
    · obtain ⟨rfl, rfl⟩ := hks
      rw [adjList_pushAdj_same]
      have h1 := hprop u hu k s
      have h2 := habs u hu hn
      simp [List.nodup_append, h1, h2]
    · rw [adjList_pushAdj_ne u k s k' s' e hks]
      exact hprop u hu k' s'
  · rw [if_neg hn]
    exact hprop u hu k' s'

theorem absent_updateUnitig_push (g : UnitigGraph) (n : Nat) (k s : Bool)
    (e : Nat × Bool) (m : Nat) (k₂ s₂ : Bool) (e₂ : Nat × Bool)
    (hne : ¬(n = m ∧ k = k₂ ∧ s = s₂))
    (habs : ∀ u ∈ g.unitigs, u.number = m → e₂ ∉ adjList u k₂ s₂) :
    ∀ u ∈ (updateUnitig g n (pushAdj k s e)).unitigs,
      u.number = m → e₂ ∉ adjList u k₂ s₂ := by
  intro u' hu' hnum
  simp only [updateUnitig, List.mem_map] at hu'
  obtain ⟨u, hu, rfl⟩ := hu'
  by_cases hn : u.number = n
  · rw [if_pos hn] at hnum ⊢
    rw [number_pushAdj] at hnum
    have hkne : ¬(k = k₂ ∧ s = s₂) := by
      intro hc; exact hne ⟨by rw [← hn, hnum], hc.1, hc.2⟩
    rw [adjList_pushAdj_ne u k s k₂ s₂ e hkne]
    exact habs u hu hnum
  · rw [if_neg hn] at hnum ⊢
    exact habs u hu hnum

theorem find?_number_eq_of_nodup (l : List Unitig) (u : Unitig)
    (hnodup : (l.map Unitig.number).Nodup) (hu : u ∈ l) :
    List.find? (fun v => v.number = u.number) l = some u := by
  induction l with
  | nil => cases hu
  | cons v l ih =>
    simp only [List.map_cons, List.nodup_cons] at hnodup
    rcases List.mem_cons.mp hu with rfl | hmem
    · simp [List.find?_cons]
    · have hne : ¬(v.number = u.number) := by
        intro hc
        exact hnodup.1 (hc ▸ List.mem_map_of_mem Unitig.number hmem)
      rw [List.find?_cons, decide_eq_false hne]
      exact ih hnodup.2 hmem

theorem lookupUnitig_eq_of_nodup (g : UnitigGraph) (u : Unitig)
    (hnodup : (g.unitigs.map Unitig.number).Nodup)
    (hu : u ∈ g.unitigs) : lookupUnitig g u.number = some u :=
  find?_number_eq_of_nodup g.unitigs u hnodup hu


theorem decide_neg_pos (a : Int) (h : a ≠ 0) :
    (decide (0 < -a)) = !(decide (0 < a)) := by
  rcases lt_or_gt_of_ne h with hlt | hgt
  · have h1 : (0 : Int) < -a := Int.neg_pos.mpr hlt
    have h2 : ¬((0 : Int) < a) := by omega
    simp [h1, h2]
  · have h1 : ¬((0 : Int) < -a) := by omega
    have h2 : (0 : Int) < a := hgt
    simp [h1, h2]

theorem eq_neg_of_natAbs_strand (a b : Int) (hn : a.natAbs = b.natAbs)
    (hs : (decide (0 < a)) = !(decide (0 < b))) : a = -b := by
  cases hda : decide (0 < a) <;> cases hdb : decide (0 < b) <;> rw [hda, hdb] at hs
  · cases hs
  · have h1 := of_decide_eq_false hda
    have h2 := of_decide_eq_true hdb
    omega
  · have h1 := of_decide_eq_true hda
    have h2 := of_decide_eq_false hdb
    omega
  · cases hs

theorem absence_of_linkExists_false (g : UnitigGraph)
    (hnodup : (g.unitigs.map Unitig.number).Nodup)
    (x : Nat) (sx : Bool) (y : Nat) (sy : Bool)
    (h : linkExists g x sx y sy = false) :
    ∀ u ∈ g.unitigs, u.number = x → (y, sy) ∉ adjList u true sx := by
  intro u hu hnum hmem
  have hlook : lookupUnitig g x = some u := hnum ▸ lookupUnitig_eq_of_nodup g u hnodup hu
  simp only [linkExists, hlook] at h
  have hany : (if sx then u.forwardNext else u.reverseNext).any
      (fun e => e.1 = y && e.2 = sy) = true := by
    apply List.any_eq_true.mpr
    refine ⟨(y, sy), ?_, by simp⟩
    cases sx
    · simpa [adjList] using hmem
    · simpa [adjList] using hmem
  rw [hany] at h
  cases h

theorem absence_of_linkExistsPrev_false (g : UnitigGraph)
    (hnodup : (g.unitigs.map Unitig.number).Nodup)
    (x : Nat) (sx : Bool) (y : Nat) (sy : Bool)
    (h : linkExistsPrev g x sx y sy = false) :
    ∀ u ∈ g.unitigs, u.number = y → (x, sx) ∉ adjList u false sy := by
  intro u hu hnum hmem
  have hlook : lookupUnitig g y = some u := hnum ▸ lookupUnitig_eq_of_nodup g u hnodup hu
  simp only [linkExistsPrev, hlook] at h
  have hany : (if sy then u.forwardPrev else u.reversePrev).any
      (fun e => e.1 = x && e.2 = sx) = true := by
    apply List.any_eq_true.mpr
    refine ⟨(x, sx), ?_, by simp⟩
    cases sy
    · simpa [adjList] using hmem
    · simpa [adjList] using hmem
  rw [hany] at h
  cases h

theorem isPrefixOf_sound : ∀ (l m : List Nat), l.isPrefixOf m = true → l <+: m
  | [], m, _ => ⟨m, rfl⟩
  | a :: l, [], h => by cases h
  | a :: l, b :: m, h => by
    simp only [List.isPrefixOf, Bool.and_eq_true, beq_iff_eq] at h
    obtain ⟨t, ht⟩ := isPrefixOf_sound l m h.2
    exact ⟨t, by rw [h.1, List.cons_append, ht]⟩

theorem chopAux_pref_of_subject (s : List Nat) (rev : List Nat) :
    chopAux s rev <+: s := by
  induction rev with
  | nil => exact List.nil_prefix
  | cons c rest ih =>
    unfold chopAux
    by_cases h : (c :: rest).reverse.isPrefixOf s
    · rw [if_pos h]
      exact isPrefixOf_sound _ _ h
    · rw [if_neg h]
      exact ih

theorem chopAux_pref_of_reverse (s : List Nat) (rev : List Nat) :
    chopAux s rev <+: rev.reverse := by
  induction rev with
  | nil => exact List.nil_prefix
  | cons c rest ih =>
    unfold chopAux
    by_cases h : (c :: rest).reverse.isPrefixOf s
    · rw [if_pos h]
    · rw [if_neg h]
      refine ih.trans ?_
      rw [List.reverse_cons]
      exact List.prefix_append rest.reverse [c]

theorem chopToPref_pref_right (pref s : List Nat) : chopToPref pref s <+: s :=
  chopAux_pref_of_subject s pref.reverse

theorem chopToPref_pref_left (pref s : List Nat) : chopToPref pref s <+: pref := by
  have := chopAux_pref_of_reverse s pref.reverse
  rwa [List.reverse_reverse] at this

theorem foldl_chop_pref_acc (l : List (List Nat)) (acc : List Nat) :
    l.foldl chopToPref acc <+: acc := by
  induction l generalizing acc with
  | nil => exact List.prefix_refl acc
  | cons t l ih =>
    exact (ih (chopToPref acc t)).trans (chopToPref_pref_left acc t)

theorem foldl_chop_pref_mem (l : List (List Nat)) (acc : List Nat) (s : List Nat)
    (hs : s ∈ l) : l.foldl chopToPref acc <+: s := by
  induction l generalizing acc with
  | nil => cases hs
  | cons t l ih =>
    rcases List.mem_cons.mp hs with rfl | hmem
    · exact (foldl_chop_pref_acc l (chopToPref acc s)).trans (chopToPref_pref_right acc s)
    · exact ih (chopToPref acc t) hmem

theorem getCommonStartSeq_length_le (seqs : List (List Nat)) (s : List Nat)
    (hs : s ∈ seqs) : (getCommonStartSeq seqs).length ≤ s.length := by
  unfold getCommonStartSeq
  match seqs, hs with
  | s0 :: rest, hs =>
    exact (foldl_chop_pref_mem (s0 :: rest) s0 s hs).length_le

theorem getCommonEndSeq_length_le (seqs : List (List Nat)) (s : List Nat)
    (hs : s ∈ seqs) : (getCommonEndSeq seqs).length ≤ s.length := by
  unfold getCommonEndSeq
  rw [List.length_reverse]
  have := getCommonStartSeq_length_le (seqs.map List.reverse) s.reverse
    (List.mem_map_of_mem List.reverse hs)
  simpa using this

theorem guardLoopStart_length_le (posList : List Nat) (halfK : Nat)
    (common c : List Nat) (h : guardLoopStart posList halfK common = some c) :
    c.length ≤ common.length := by
  induction common with
  | nil =>
    unfold guardLoopStart at h
    by_cases hc : posList.any (fun p => p ≤ 0 + halfK)
    · rw [if_pos hc] at h; cases h
    · rw [if_neg hc] at h; cases h; exact Nat.le_refl _
  | cons x xs ih =>
    unfold guardLoopStart at h
    by_cases hc : posList.any (fun p => p ≤ (x :: xs).length + halfK)
    · rw [if_pos hc] at h
      exact (ih h).trans (by simp)
    · rw [if_neg hc] at h
      cases h
      exact Nat.le_refl _

theorem guardLoopEndAux_length_le (posList : List Nat) (halfK : Nat)
    (rev c : List Nat) (h : guardLoopEndAux posList halfK rev = some c) :
    c.length ≤ rev.length := by
  induction rev with
  | nil =>
    unfold guardLoopEndAux at h
    by_cases hc : posList.any (fun p => p ≤ 0 + halfK)
    · rw [if_pos hc] at h; cases h
    · rw [if_neg hc] at h; cases h; exact Nat.le_refl _
  | cons x xs ih =>
    unfold guardLoopEndAux at h
    by_cases hc : posList.any (fun p => p ≤ (x :: xs).length + halfK)
    · rw [if_pos hc] at h
      exact (ih h).trans (by simp)
    · rw [if_neg hc] at h
      cases h
      simp

theorem guardLoopEnd_length_le (posList : List Nat) (halfK : Nat)
    (common c : List Nat) (h : guardLoopEnd posList halfK common = some c) :
    c.length ≤ common.length := by
  have := guardLoopEndAux_length_le posList halfK common.reverse c h
  simpa using this

theorem shift1_sources_length (sources : List (Unitig × Bool)) (dest : Unitig)
    (halfK : Nat) (out : List (Unitig × Bool) × Unitig × Nat)
    (hmirror : ∀ us ∈ sources, us.1.reverseSeq.length = us.1.forwardSeq.length)
    (hpos : ∀ us ∈ sources, 1 ≤ us.1.length)
    (hres : shiftSequence1 sources dest halfK = some out) :
    ∀ us ∈ out.1, 1 ≤ us.1.length := by
  by_cases h0 : (getCommonEndSeq (sources.map (fun us => us.1.getSeq us.2))).length = 0
  · simp only [shiftSequence1, if_pos h0] at hres
    cases hres
    exact hpos
  · simp only [shiftSequence1, if_neg h0] at hres
    have hLle : ∀ us ∈ sources,
        (getCommonEndSeq (sources.map (fun us => us.1.getSeq us.2))).length ≤ us.1.length := by
      intro us hus
      have h1 := getCommonEndSeq_length_le (sources.map (fun us => us.1.getSeq us.2))
        (us.1.getSeq us.2) (List.mem_map_of_mem _ hus)
      have h2 : (us.1.getSeq us.2).length = us.1.length := by
        cases hstr : us.2 <;> simp [Unitig.getSeq, hstr, Unitig.length, hmirror us hus]
      rw [h2] at h1
      exact h1
    rcases hgs : guardLoopStart (dest.forwardPositions.map Position.pos) halfK
        (if sources.any (fun us => us.1.length =
            (getCommonEndSeq (sources.map (fun us => us.1.getSeq us.2))).length)
         then (getCommonEndSeq (sources.map (fun us => us.1.getSeq us.2))).drop 1
         else getCommonEndSeq (sources.map (fun us => us.1.getSeq us.2))) with _ | c2
    · rw [hgs] at hres
      exact Option.noConfusion hres
    · simp only [hgs] at hres
      have hg : guardLoopStart (dest.forwardPositions.map Position.pos) halfK
          (if sources.any (fun us => us.1.length =
              (getCommonEndSeq (sources.map (fun us => us.1.getSeq us.2))).length)
           then (getCommonEndSeq (sources.map (fun us => us.1.getSeq us.2))).drop 1
           else getCommonEndSeq (sources.map (fun us => us.1.getSeq us.2))) = some c2 := hgs
      by_cases hc2 : c2.length = 0
      · rw [if_pos hc2] at hres
        cases hres
        exact hpos
      · rw [if_neg hc2] at hres
        cases hres
        intro us2 hus2
        simp only [List.mem_map] at hus2
        obtain ⟨us, hus, rfl⟩ := hus2
        have hlt : c2.length < us.1.length := by
          have hle2 := guardLoopStart_length_le _ _ _ _ hg
          by_cases hleave : sources.any (fun us => us.1.length =
              (getCommonEndSeq (sources.map (fun us => us.1.getSeq us.2))).length)
          · rw [if_pos hleave] at hle2
            have : c2.length ≤ (getCommonEndSeq
                (sources.map (fun us => us.1.getSeq us.2))).length - 1 := by
              simpa using hle2
            have hL := hLle us hus
            omega
          · rw [if_neg hleave] at hle2
            have hne := List.any_eq_false.mp (Bool.not_eq_true _ ▸ hleave)
            have hneu := hne us hus
            have hL := hLle us hus
            simp only [decide_eq_true_eq] at hneu
            omega
        have hlt2 : c2.length < us.1.forwardSeq.length := by
          simpa [Unitig.length] using hlt
        cases hstr : us.2
        · simp only [hstr, Bool.false_eq_true, if_false, Unitig.length,
            removeSeqFromStart, List.length_drop]
          omega
        · simp only [hstr, if_true, Unitig.length, removeSeqFromEnd, List.length_take]
          omega

theorem shift2_sources_length (dest : Unitig) (sources : List (Unitig × Bool))
    (halfK : Nat) (out : List (Unitig × Bool) × Unitig × Nat)
    (hmirror : ∀ us ∈ sources, us.1.reverseSeq.length = us.1.forwardSeq.length)
    (hpos : ∀ us ∈ sources, 1 ≤ us.1.length)
    (hres : shiftSequence2 dest sources halfK = some out) :
    ∀ us ∈ out.1, 1 ≤ us.1.length := by
  by_cases h0 : (getCommonStartSeq (sources.map (fun us => us.1.getSeq us.2))).length = 0
  · simp only [shiftSequence2, if_pos h0] at hres
    cases hres
    exact hpos
  · simp only [shiftSequence2, if_neg h0] at hres
    have hLle : ∀ us ∈ sources,
        (getCommonStartSeq (sources.map (fun us => us.1.getSeq us.2))).length ≤ us.1.length := by
      intro us hus
      have h1 := getCommonStartSeq_length_le (sources.map (fun us => us.1.getSeq us.2))
        (us.1.getSeq us.2) (List.mem_map_of_mem _ hus)
      have h2 : (us.1.getSeq us.2).length = us.1.length := by
        cases hstr : us.2 <;> simp [Unitig.getSeq, hstr, Unitig.length, hmirror us hus]
      rw [h2] at h1
      exact h1
    rcases hgs : guardLoopEnd (dest.reversePositions.map Position.pos) halfK
        (if sources.any (fun us => us.1.length =
            (getCommonStartSeq (sources.map (fun us => us.1.getSeq us.2))).length)
         then (getCommonStartSeq (sources.map (fun us => us.1.getSeq us.2))).dropLast
         else getCommonStartSeq (sources.map (fun us => us.1.getSeq us.2))) with _ | c2
    · rw [hgs] at hres
      exact Option.noConfusion hres
    · simp only [hgs] at hres
      have hg : guardLoopEnd (dest.reversePositions.map Position.pos) halfK
          (if sources.any (fun us => us.1.length =
              (getCommonStartSeq (sources.map (fun us => us.1.getSeq us.2))).length)
           then (getCommonStartSeq (sources.map (fun us => us.1.getSeq us.2))).dropLast
           else getCommonStartSeq (sources.map (fun us => us.1.getSeq us.2))) = some c2 := hgs
      by_cases hc2 : c2.length = 0
      · rw [if_pos hc2] at hres
        cases hres
        exact hpos
      · rw [if_neg hc2] at hres
        cases hres
        intro us2 hus2
        simp only [List.mem_map] at hus2
        obtain ⟨us, hus, rfl⟩ := hus2
        have hlt : c2.length < us.1.length := by
          have hle2 := guardLoopEnd_length_le _ _ _ _ hg
          by_cases hleave : sources.any (fun us => us.1.length =
              (getCommonStartSeq (sources.map (fun us => us.1.getSeq us.2))).length)
          · rw [if_pos hleave] at hle2
            have : c2.length ≤ (getCommonStartSeq
                (sources.map (fun us => us.1.getSeq us.2))).length - 1 := by
              simpa [List.length_dropLast] using hle2
            have hL := hLle us hus
            omega
          · rw [if_neg hleave] at hle2
            have hne := List.any_eq_false.mp (Bool.not_eq_true _ ▸ hleave)
            have hneu := hne us hus
            have hL := hLle us hus
            simp only [decide_eq_true_eq] at hneu
            omega
        have hlt2 : c2.length < us.1.forwardSeq.length := by
          simpa [Unitig.length] using hlt
        cases hstr : us.2
        · simp only [hstr, Bool.false_eq_true, if_false, Unitig.length,
            removeSeqFromEnd, List.length_take]
          omega
        · simp only [hstr, if_true, Unitig.length, removeSeqFromStart, List.length_drop]
          omega

theorem getSeq_not (u : Unitig) (s : Bool) (hu : u.reverseSeq = revcomp u.forwardSeq) :
    u.getSeq (!s) = revcomp (u.getSeq s) := by
  cases s
  · simp [Unitig.getSeq, hu, revcomp_involutive]
  · simp [Unitig.getSeq, hu]

theorem getSequenceFromPath_append (g : UnitigGraph) (q r : List (Nat × Bool)) :
    getSequenceFromPath g (q ++ r) =
      (getSequenceFromPath g q).bind fun s1 =>
        (getSequenceFromPath g r).map fun s2 => s1 ++ s2 := by
  induction q with
  | nil =>
    simp [getSequenceFromPath]
  | cons e q ih =>
    simp only [List.cons_append, getSequenceFromPath]
    cases hl : lookupUnitig g e.1 with
    | none => simp
    | some u =>
      cases hq : getSequenceFromPath g q with
      | none => simp [ih, hq]
      | some s1 =>
        cases hr : getSequenceFromPath g r with
        | none => simp [ih, hq, hr]
        | some s2 => simp [ih, hq, hr, List.append_assoc]

theorem reversePath_cons (e : Nat × Bool) (p : List (Nat × Bool)) :
    reversePath (e :: p) = reversePath p ++ [(e.1, !e.2)] := by
  simp [reversePath]

theorem loadSeqLoop_spec (k : Nat) (contigs : List (List Nat)) : ∀ (start : Nat),
    start + (contigs.filter (fun c => k ≤ c.length)).length ≤ 32767 →
    loadSeqLoop k contigs start =
      .ok ((List.range' (start + 1)
              (contigs.filter (fun c => k ≤ c.length)).length).zip
            (contigs.filter (fun c => k ≤ c.length))) := by
  induction contigs with
  | nil => intro start h; rfl
  | cons c rest ih =>
    intro start h
    by_cases hlen : c.length < k
    · have hfilt : (c :: rest).filter (fun c => k ≤ c.length)
          = rest.filter (fun c => k ≤ c.length) := by
        simp [List.filter_cons, Nat.not_le_of_lt hlen]
      rw [hfilt] at h ⊢
      unfold loadSeqLoop
      rw [if_pos hlen]
      exact ih start h
    · have hke : k ≤ c.length := Nat.le_of_not_lt hlen
      have hfilt : (c :: rest).filter (fun c => k ≤ c.length)
          = c :: rest.filter (fun c => k ≤ c.length) := by
        simp [List.filter_cons, hke]
      rw [hfilt] at h ⊢
      unfold loadSeqLoop
      rw [if_neg hlen]
      have hlim : ¬(32767 < start + 1) := by
        simp only [List.length_cons] at h
        omega
      rw [if_neg hlim]
      have h2 : (start + 1) + (rest.filter (fun c => k ≤ c.length)).length ≤ 32767 := by
        simp only [List.length_cons] at h
        omega
      rw [ih (start + 1) h2]
      simp [List.range', List.zip, Except.map]

theorem getD_take_of_lt (s : List Nat) (n j d : Nat) (h : j < n) :
    (s.take n).getD j d = s.getD j d := by
  simp [List.getD, List.getElem?_take, h]

theorem getD_drop_add (s : List Nat) (m j d : Nat) :
    (s.drop m).getD j d = s.getD (m + j) d := by
  simp [List.getD, List.getElem?_drop]

theorem matchesAt_self_start (s : List Nat) (n : Nat) (h : n ≤ s.length) :
    matchesAt (s.take n) s 0 = true := by
  unfold matchesAt
  have hlen : (s.take n).length = n := by simp [List.length_take, Nat.min_eq_left h]
  rw [hlen, Bool.and_eq_true]
  constructor
  · simpa using h
  · apply List.all_eq_true.mpr
    intro j hj
    simp only [List.mem_range] at hj
    rw [Bool.or_eq_true]
    right
    rw [getD_take_of_lt s n j 0 hj]
    simp

theorem matchesAt_self_end (s : List Nat) (n : Nat) (h : n ≤ s.length) :
    matchesAt (s.drop (s.length - n)) s (s.length - n) = true := by
  unfold matchesAt
  have hlen : (s.drop (s.length - n)).length = n := by
    simp [List.length_drop]
    omega
  rw [hlen, Bool.and_eq_true]
  constructor
  · simp only [decide_eq_true_eq]
    omega
  · apply List.all_eq_true.mpr
    intro j hj
    simp only [List.mem_range] at hj
    rw [Bool.or_eq_true]
    right
    rw [getD_drop_add s (s.length - n) j 0]
    simp

theorem deOverlap_acc_pref (patLen : Nat) (l : List Nat) :
    ∀ (acc : List Nat × Nat), acc.1 <+: (l.foldl
      (fun acc i => if acc.2 ≤ i then (acc.1 ++ [i], i + patLen) else acc) acc).1 := by
  induction l with
  | nil => intro acc; exact List.prefix_refl _
  | cons x rest ih =>
    intro acc
    simp only [List.foldl_cons]
    by_cases hx : acc.2 ≤ x
    · rw [if_pos hx]
      exact (List.prefix_append acc.1 [x]).trans (ih (acc.1 ++ [x], x + patLen))
    · rw [if_neg hx]
      exact ih acc

theorem deOverlap_ne_nil (patLen : Nat) (starts : List Nat) (h : starts ≠ []) :
    deOverlap patLen starts ≠ [] := by
  match starts, h with
  | x :: rest, _ =>
    unfold deOverlap
    simp only [List.foldl_cons, Nat.zero_le, if_pos, List.nil_append]
    have := deOverlap_acc_pref patLen rest ([x], x + patLen)
    intro hc
    rw [hc] at this
    exact absurd (List.prefix_nil.mp this) (by simp)

theorem findIter_ne_nil (pat s : List Nat) (i : Nat) (h : matchesAt pat s i = true) :
    findIter pat s ≠ [] := by
  have hi : i ∈ matchStarts pat s := by
    unfold matchStarts
    apply List.mem_filter.mpr
    refine ⟨List.mem_range.mpr ?_, h⟩
    unfold matchesAt at h
    rw [Bool.and_eq_true] at h
    have := h.1
    simp only [decide_eq_true_eq] at this
    omega
  have hne : matchStarts pat s ≠ [] := List.ne_nil_of_mem hi
  unfold findIter
  intro hc
  exact deOverlap_ne_nil pat.length (matchStarts pat s) hne (List.map_eq_nil_iff.mp hc)

theorem foldl_best_isSome (cands : List (List Nat)) (l : List (List Nat)) :
    ∀ (acc : Option (List Nat)), acc.isSome →
      (l.foldl (fun acc m =>
        match acc with
        | none => some m
        | some best => if cmpMatch cands m best = .gt then some best else some m) acc).isSome := by
  induction l with
  | nil => intro acc h; exact h
  | cons m rest ih =>
    intro acc h
    simp only [List.foldl_cons]
    cases acc with
    | none => cases h
    | some best =>
      have hred : (match some best with
          | none => some m
          | some best => if cmpMatch cands m best = .gt then some best else some m)
          = if cmpMatch cands m best = .gt then some best else some m := rfl
      rw [hred]
      by_cases hc : cmpMatch cands m best = .gt
      · rw [if_pos hc]; exact ih (some best) rfl
      · rw [if_neg hc]; exact ih (some m) rfl

theorem findBestMatch_isSome (cands : List (List Nat)) (h : cands ≠ []) :
    (findBestMatch cands).isSome := by
  match cands, h with
  | m :: rest, _ =>
    unfold findBestMatch
    simp only [List.foldl_cons]
    exact foldl_best_isSome (m :: rest) rest (some m) rfl

theorem mapOption_isSome (f : α → Option β) (l : List α)
    (h : ∀ a ∈ l, (f a).isSome) : (mapOption f l).isSome := by
  induction l with
  | nil => rfl
  | cons a rest ih =>
    unfold mapOption
    obtain ⟨b, hb⟩ := Option.isSome_iff_exists.mp (h a (List.mem_cons_self a rest))
    rw [hb]
    have := ih (fun x hx => h x (List.mem_cons_of_mem a hx))
    obtain ⟨bs, hbs⟩ := Option.isSome_iff_exists.mp this
    rw [hbs]
    rfl

theorem repairOne_isSome (allSeqs : List (List Nat)) (n : Nat) (s : List Nat)
    (hs : s ∈ allSeqs) (h : n ≤ s.length) :
    (sequenceEndRepairOne allSeqs n s).isSome := by
  have hstart : allMatches (s.take n) allSeqs ≠ [] := by
    have hit := findIter_ne_nil (s.take n) s 0 (matchesAt_self_start s n h)
    have hmem : ∀ x ∈ findIter (s.take n) s, x ∈ allMatches (s.take n) allSeqs := by
      intro x hx
      exact List.mem_flatten.mpr ⟨findIter (s.take n) s, List.mem_map_of_mem _ hs, hx⟩
    match hfi : findIter (s.take n) s, hit with
    | x :: rest, _ =>
      exact List.ne_nil_of_mem (hmem x (by rw [hfi]; exact List.mem_cons_self x rest))
  have hend : allMatches (s.drop (s.length - n)) allSeqs ≠ [] := by
    have hit := findIter_ne_nil (s.drop (s.length - n)) s (s.length - n)
      (matchesAt_self_end s n h)
    have hmem : ∀ x ∈ findIter (s.drop (s.length - n)) s,
        x ∈ allMatches (s.drop (s.length - n)) allSeqs := by
      intro x hx
      exact List.mem_flatten.mpr
        ⟨findIter (s.drop (s.length - n)) s, List.mem_map_of_mem _ hs, hx⟩
    match hfi : findIter (s.drop (s.length - n)) s, hit with
    | x :: rest, _ =>
      exact List.ne_nil_of_mem (hmem x (by rw [hfi]; exact List.mem_cons_self x rest))
  simp only [sequenceEndRepairOne]
  obtain ⟨b1, hb1⟩ := Option.isSome_iff_exists.mp (findBestMatch_isSome _ hstart)
  obtain ⟨b2, hb2⟩ := Option.isSome_iff_exists.mp (findBestMatch_isSome _ hend)
  rw [hb1, hb2]
  rfl

theorem scanGfaLines_not_ok (lines : List (List Nat)) (hbad : hasBadHeaderLine lines) :
    ∀ st, (scanGfaLines lines st).isOk = false := by
  induction lines with
  | nil =>
    obtain ⟨line, hmem, -⟩ := hbad
    cases hmem
  | cons l rest ih =>
    intro st
    obtain ⟨line, hmem, hH, hNone⟩ := hbad
    unfold scanGfaLines
    rcases List.mem_cons.mp hmem with rfl | hmem2
    · rw [if_pos hH, hNone]
      rfl
    · have hbad2 : hasBadHeaderLine rest := ⟨line, hmem2, hH, hNone⟩
      by_cases h1 : (splitOnByte tabByte (trimNewlines l)).head? = some (strToBytes "H")
      · rw [if_pos h1]
        cases hr : readGfaHeaderLine (splitOnByte tabByte (trimNewlines l)) with
        | some k => exact ih hbad2 _
        | none => rfl
      · rw [if_neg h1]
        by_cases h2 : (splitOnByte tabByte (trimNewlines l)).head? = some (strToBytes "S")
        · rw [if_pos h2]
          cases hu : unitigFromSegmentLine l with
          | some u => exact ih hbad2 _
          | none => rfl
        · rw [if_neg h2]
          by_cases h3 : (splitOnByte tabByte (trimNewlines l)).head? = some (strToBytes "L")
          · rw [if_pos h3]; exact ih hbad2 _
          · rw [if_neg h3]
            by_cases h4 : (splitOnByte tabByte (trimNewlines l)).head? = some (strToBytes "P")
            · rw [if_pos h4]; exact ih hbad2 _
            · rw [if_neg h4]; exact ih hbad2 _


/-! ## Claim theorems -/

/-- Claim C2 (code-bug evidence).  On the graph with two bare unitigs,
`create_link(1, -2)` followed by `delete_link(1, -2)` is not a no-op:
because `delete_link_one_way` selects the end unitig's prev-list by the
START strand (where `create_link_one_way` had selected it by the END
strand), the prev entries inserted by the create survive the delete.  The
resulting graph differs from the original, unitig 2 retains the stale
entry `(1, +)` in `reverse_prev`, and the graph's own `check_links`
invariant guard now fails (it would panic in the source). -/
theorem C2_create_delete_link_not_noop :
    ((createLink twoUnitigGraph 1 (-2)).bind (fun g1 => deleteLink g1 1 (-2))
        ≠ some twoUnitigGraph)
    ∧ ((createLink twoUnitigGraph 1 (-2)).bind (fun g1 => deleteLink g1 1 (-2))).map checkLinks
        = some false
    ∧ checkLinks twoUnitigGraph = true
    ∧ (((createLink twoUnitigGraph 1 (-2)).bind (fun g1 => deleteLink g1 1 (-2))).bind
        (fun g => lookupUnitig g 2)).map Unitig.reversePrev = some [(1, true)] := by
  decide

/-- Claim C3 (code-bug evidence).  `shift_sequence_1` with two exclusive
2 bp inputs ending in `A` (common end sequence `A`, so the guards run)
and a destination holding a forward position at offset 1 with
`half_k = 5`: guard 2's condition `pos ≤ |common_seq| + half_k` stays
true when the common sequence is already empty, so the loop executes
`common_seq.remove(0)` on an empty vector — a panic (modelled `none`)
instead of the specified "abort (return 0)". -/
theorem C3_shift1_guard_removes_from_empty :
    shiftSequence1 [(shiftSrcCA, true), (shiftSrcGA, true)] shiftDestLowPos 5 = none
    ∧ getCommonEndSeq [shiftSrcCA.getSeq true, shiftSrcGA.getSeq true] = [baseA] := by
  decide

/-- Claim C4, counterexample.  On a graph holding the edge 1+ → 2+ (and
its mirror) exactly once per endpoint-list, calling `create_link(1, 2)`
again duplicates the entry: unitig 1's forward-next list ends up with
`(2, +)` twice, so the exactly-once property is NOT preserved when the
edge already existed. -/
theorem C4_counterexample :
    linksOncePer oneEdgeGraph
    ∧ checkLinks oneEdgeGraph = true
    ∧ ((createLink oneEdgeGraph 1 2).bind (fun g => lookupUnitig g 1)).map Unitig.forwardNext
        = some [(2, true), (2, true)]
    ∧ (createLink oneEdgeGraph 1 2).map (fun g => decide (linksOncePer g)) = some false := by
  decide

/-- Claim C4, amended.  `create_link(a, b)` preserves the
once-per-endpoint-list property provided the edge a → b and its mirror
are absent (in both their next- and prev-list forms) before the call;
with the edge already present a duplicate is created (see the
counterexample). -/
theorem C4_create_link_preserves_once_when_absent (g : UnitigGraph) (a b : Int)
    (ha0 : a ≠ 0) (hb0 : b ≠ 0)
    (hnodup : (g.unitigs.map Unitig.number).Nodup)
    (ha : (lookupUnitig g a.natAbs).isSome)
    (hb : (lookupUnitig g b.natAbs).isSome)
    (hprop : linksOncePer g)
    (h1 : linkExists g a.natAbs (decide (0 < a)) b.natAbs (decide (0 < b)) = false)
    (h2 : linkExistsPrev g a.natAbs (decide (0 < a)) b.natAbs (decide (0 < b)) = false)
    (h3 : linkExists g b.natAbs (!decide (0 < b)) a.natAbs (!decide (0 < a)) = false)
    (h4 : linkExistsPrev g b.natAbs (!decide (0 < b)) a.natAbs (!decide (0 < a)) = false) :
    ∃ g2, createLink g a b = some g2 ∧ linksOncePer g2 := by
  obtain ⟨ua, hua⟩ := Option.isSome_iff_exists.mp ha
  obtain ⟨ub, hub⟩ := Option.isSome_iff_exists.mp hb
  have how1 : createLinkOneWay g a b =
      some (updateUnitig (updateUnitig g a.natAbs
              (pushAdj true (decide (0 < a)) (b.natAbs, decide (0 < b))))
            b.natAbs (pushAdj false (decide (0 < b)) (a.natAbs, decide (0 < a)))) := by
    simp only [createLinkOneWay, hua, hub]
  have A1 := absence_of_linkExists_false g hnodup a.natAbs (decide (0 < a))
    b.natAbs (decide (0 < b)) h1
  have A2 := absence_of_linkExistsPrev_false g hnodup a.natAbs (decide (0 < a))
    b.natAbs (decide (0 < b)) h2
  have A3 := absence_of_linkExists_false g hnodup b.natAbs (!decide (0 < b))
    a.natAbs (!decide (0 < a)) h3
  have A4 := absence_of_linkExistsPrev_false g hnodup b.natAbs (!decide (0 < b))
    a.natAbs (!decide (0 < a)) h4
  have P1 : linksOncePer (updateUnitig g a.natAbs
      (pushAdj true (decide (0 < a)) (b.natAbs, decide (0 < b)))) :=
    linksOncePer_updateUnitig_push g a.natAbs true (decide (0 < a))
      (b.natAbs, decide (0 < b)) hprop A1
  have A2b := absent_updateUnitig_push g a.natAbs true (decide (0 < a))
    (b.natAbs, decide (0 < b)) b.natAbs false (decide (0 < b))
    (a.natAbs, decide (0 < a)) (by simp) A2
  have P2 : linksOncePer (updateUnitig (updateUnitig g a.natAbs
      (pushAdj true (decide (0 < a)) (b.natAbs, decide (0 < b))))
      b.natAbs (pushAdj false (decide (0 < b)) (a.natAbs, decide (0 < a)))) :=
    linksOncePer_updateUnitig_push _ b.natAbs false (decide (0 < b))
      (a.natAbs, decide (0 < a)) P1 A2b
  by_cases hmir : a = -b
  · refine ⟨_, ?_, P2⟩
    rw [createLink, how1]
    show (if a = -b then _ else _) = _
    rw [if_pos hmir]
  · have hnega : (decide (0 < -a)) = !(decide (0 < a)) := decide_neg_pos a ha0
    have hnegb : (decide (0 < -b)) = !(decide (0 < b)) := decide_neg_pos b hb0
    have hlb1 : (lookupUnitig (updateUnitig (updateUnitig g a.natAbs
        (pushAdj true (decide (0 < a)) (b.natAbs, decide (0 < b))))
        b.natAbs (pushAdj false (decide (0 < b)) (a.natAbs, decide (0 < a)))) b.natAbs).isSome := by
      rw [lookupUnitig_updateUnitig_isSome _ _ _ _ (fun u => number_pushAdj u _ _ _),
          lookupUnitig_updateUnitig_isSome _ _ _ _ (fun u => number_pushAdj u _ _ _)]
      exact hb
    have hla1 : (lookupUnitig (updateUnitig (updateUnitig g a.natAbs
        (pushAdj true (decide (0 < a)) (b.natAbs, decide (0 < b))))
        b.natAbs (pushAdj false (decide (0 < b)) (a.natAbs, decide (0 < a)))) a.natAbs).isSome := by
      rw [lookupUnitig_updateUnitig_isSome _ _ _ _ (fun u => number_pushAdj u _ _ _),
          lookupUnitig_updateUnitig_isSome _ _ _ _ (fun u => number_pushAdj u _ _ _)]
      exact ha
    obtain ⟨vb, hvb⟩ := Option.isSome_iff_exists.mp hlb1
    obtain ⟨va, hva⟩ := Option.isSome_iff_exists.mp hla1
    have how2 : createLinkOneWay (updateUnitig (updateUnitig g a.natAbs
        (pushAdj true (decide (0 < a)) (b.natAbs, decide (0 < b))))
        b.natAbs (pushAdj false (decide (0 < b)) (a.natAbs, decide (0 < a)))) (-b) (-a) =
        some (updateUnitig (updateUnitig (updateUnitig (updateUnitig g a.natAbs
                (pushAdj true (decide (0 < a)) (b.natAbs, decide (0 < b))))
              b.natAbs (pushAdj false (decide (0 < b)) (a.natAbs, decide (0 < a))))
            b.natAbs (pushAdj true (!decide (0 < b)) (a.natAbs, !decide (0 < a))))
          a.natAbs (pushAdj false (!decide (0 < a)) (b.natAbs, !decide (0 < b)))) := by
      simp only [createLinkOneWay, Int.natAbs_neg, hvb, hva, hnega, hnegb]
    have hne31 : ¬(a.natAbs = b.natAbs ∧ true = true ∧ decide (0 < a) = !decide (0 < b)) := by
      rintro ⟨hn, -, hs⟩
      exact hmir (eq_neg_of_natAbs_strand a b hn hs)
    have A3b := absent_updateUnitig_push g a.natAbs true (decide (0 < a))
      (b.natAbs, decide (0 < b)) b.natAbs true (!decide (0 < b))
      (a.natAbs, !decide (0 < a)) hne31 A3
    have A3c := absent_updateUnitig_push _ b.natAbs false (decide (0 < b))
      (a.natAbs, decide (0 < a)) b.natAbs true (!decide (0 < b))
      (a.natAbs, !decide (0 < a)) (by simp) A3b
    have P3 := linksOncePer_updateUnitig_push _ b.natAbs true (!decide (0 < b))
      (a.natAbs, !decide (0 < a)) P2 A3c
    have hne42 : ¬(b.natAbs = a.natAbs ∧ false = false ∧ decide (0 < b) = !decide (0 < a)) := by
      rintro ⟨hn, -, hs⟩
      refine hmir (eq_neg_of_natAbs_strand a b hn.symm ?_)
      cases hda : decide (0 < a) <;> rw [hda] at hs <;> simp [hs]
    have A4b := absent_updateUnitig_push g a.natAbs true (decide (0 < a))
      (b.natAbs, decide (0 < b)) a.natAbs false (!decide (0 < a))
      (b.natAbs, !decide (0 < b)) (by simp) A4
    have A4c := absent_updateUnitig_push _ b.natAbs false (decide (0 < b))
      (a.natAbs, decide (0 < a)) a.natAbs false (!decide (0 < a))
      (b.natAbs, !decide (0 < b)) hne42 A4b
    have A4d := absent_updateUnitig_push _ b.natAbs true (!decide (0 < b))
      (a.natAbs, !decide (0 < a)) a.natAbs false (!decide (0 < a))
      (b.natAbs, !decide (0 < b)) (by simp) A4c
    have P4 := linksOncePer_updateUnitig_push _ a.natAbs false (!decide (0 < a))
      (b.natAbs, !decide (0 < b)) P3 A4d
    refine ⟨_, ?_, P4⟩
    rw [createLink, how1]
    show (if a = -b then _ else _) = _
    rw [if_neg hmir, how2]

/-- Witness for claim C4's amended theorem at a concrete input: the
two-unitig graph with no links, creating the fresh edge 1+ → 2+. -/
theorem C4_create_link_once_witness :
    ∃ g2, createLink twoUnitigGraph 1 2 = some g2 ∧ linksOncePer g2 :=
  C4_create_link_preserves_once_when_absent twoUnitigGraph 1 2 (by decide) (by decide)
    (by decide) (by decide) (by decide) (by decide) (by decide) (by decide)
    (by decide) (by decide)

/-- Claim C5, counterexample.  A line list with no valid `KM:i:` tag does
NOT always produce a fatal error: with no header line at all,
`from_gfa_lines` succeeds (the `quit_with_error` lives inside
`read_gfa_header_line`, which only runs on `H` lines), leaving
`k_size = 0`.  The empty list yields the empty graph; a lone segment line
yields a one-unitig graph. -/
theorem C5_counterexample :
    fromGfaLines [] = .ok (⟨[], 0⟩, [])
    ∧ (fromGfaLines [strToBytes "S\t1\tACGT\tDP:f:1"]).isOk = true := by
  exact ⟨rfl, by decide⟩

/-- Claim C5, amended.  `from_gfa_lines` terminates with a fatal error on
every list of GFA lines that contains a header line (first tab-field `H`)
carrying no valid `KM:i:` tag; with no header line present, no k-mer-tag
error is raised and a graph is produced. -/
theorem C5_bad_header_fatal (lines : List (List Nat))
    (hbad : hasBadHeaderLine lines) : (fromGfaLines lines).isOk = false := by
  unfold fromGfaLines
  have h := scanGfaLines_not_ok lines hbad ⟨0, [], [], []⟩
  cases hscan : scanGfaLines lines ⟨0, [], [], []⟩ with
  | error e => rfl
  | ok st => rw [hscan] at h; simp [Except.isOk, Except.toBool] at h

/-- Witness for claim C5's amended theorem: a header line with a version
tag but no `KM:i:` tag is fatal. -/
theorem C5_bad_header_fatal_witness :
    hasBadHeaderLine [strToBytes "H\tVN:Z:1.0"]
    ∧ (fromGfaLines [strToBytes "H\tVN:Z:1.0"]).isOk = false :=
  ⟨by decide, C5_bad_header_fatal _ (by decide)⟩

/-- Claim C6.  Whenever `shift_sequence_1` (resp. `shift_sequence_2`)
returns normally on sources whose strand sequences are length-consistent
and of length at least 1, every source unitig still has length at least 1
afterwards: the common sequence is a shared suffix (resp. shared start),
hence no longer than any source, and the leave-one-bp guard drops a byte
whenever some source's length equals the common length. -/
theorem C6_shift_leaves_one_bp :
    (∀ (sources : List (Unitig × Bool)) (dest : Unitig) (halfK : Nat)
        (out : List (Unitig × Bool) × Unitig × Nat),
      (∀ us ∈ sources, us.1.reverseSeq.length = us.1.forwardSeq.length) →
      (∀ us ∈ sources, 1 ≤ us.1.length) →
      shiftSequence1 sources dest halfK = some out →
      ∀ us ∈ out.1, 1 ≤ us.1.length)
    ∧ (∀ (dest : Unitig) (sources : List (Unitig × Bool)) (halfK : Nat)
        (out : List (Unitig × Bool) × Unitig × Nat),
      (∀ us ∈ sources, us.1.reverseSeq.length = us.1.forwardSeq.length) →
      (∀ us ∈ sources, 1 ≤ us.1.length) →
      shiftSequence2 dest sources halfK = some out →
      ∀ us ∈ out.1, 1 ≤ us.1.length) :=
  ⟨shift1_sources_length, shift2_sources_length⟩

/-- Witness for claim C6: shifting the common suffix `AT` out of the 3 bp
sources `CAT` and `GAT` leaves 1 bp sources. -/
theorem C6_shift_leaves_one_bp_witness :
    1 ≤ (removeSeqFromEnd shiftSrcCAT 2).length :=
  C6_shift_leaves_one_bp.1 [(shiftSrcCAT, true), (shiftSrcGAT, true)] (mkBareUnitig 20) 5
    ([(removeSeqFromEnd shiftSrcCAT 2, true), (removeSeqFromEnd shiftSrcGAT 2, true)],
      addSeqToStart (mkBareUnitig 20) (strToBytes "AT"), 2)
    (by decide) (by decide) (by decide)
    (removeSeqFromEnd shiftSrcCAT 2, true) (by decide)

/-- Claim C7.  For every path whose unitig numbers all resolve in the
index and whose unitigs satisfy `reverse_seq = revcomp(forward_seq)`,
`get_sequence_from_path(reverse_path(p))` is the reverse complement of
`get_sequence_from_path(p)`. -/
theorem C7_reverse_path_revcomp (g : UnitigGraph) (p : List (Nat × Bool))
    (hlook : ∀ e ∈ p, (lookupUnitig g e.1).isSome)
    (hrc : ∀ u ∈ g.unitigs, u.reverseSeq = revcomp u.forwardSeq) :
    getSequenceFromPath g (reversePath p) = (getSequenceFromPath g p).map revcomp := by
  induction p with
  | nil => rfl
  | cons e p ih =>
    obtain ⟨u, hu⟩ := Option.isSome_iff_exists.mp (hlook e (List.mem_cons_self e p))
    have humem : u ∈ g.unitigs := List.mem_of_find?_eq_some hu
    have hrcu := hrc u humem
    rw [reversePath_cons, getSequenceFromPath_append,
      ih (fun x hx => hlook x (List.mem_cons_of_mem e hx))]
    simp only [getSequenceFromPath, hu]
    cases hq : getSequenceFromPath g p with
    | none => simp
    | some t =>
      simp only [Option.map_some, Option.some_bind, Option.bind_some]
      rw [getSeq_not u e.2 hrcu]
      simp [revcomp_append]

/-- Witness for claim C7 on the two-unitig graph and the path 1+, 2−. -/
theorem C7_reverse_path_revcomp_witness :
    getSequenceFromPath twoUnitigGraph (reversePath [(1, true), (2, false)])
      = (getSequenceFromPath twoUnitigGraph [(1, true), (2, false)]).map revcomp :=
  C7_reverse_path_revcomp twoUnitigGraph [(1, true), (2, false)] (by decide) (by decide)

/-- Claim C8.  `next_kmers(s)` returns exactly the k-mers of the index of
the form `s[1..]` followed by one alphabet base, in the order `A,C,G,T`,
hence at most 4 of them; on the k = 4 index of `ACGACTGACATCAGCACTGA`,
`next_kmers(ACAT) = [CATC]` and `next_kmers(AGTC) = [GTCA, GTCG]`. -/
theorem C8_next_kmers (K : List (List Nat)) (s : List Nat) (h : s ≠ []) :
    nextKmers K s =
      some (ALPHABET.filterMap (fun b =>
        if (s.drop 1 ++ [b]) ∈ K then some (s.drop 1 ++ [b]) else none)) ∧
    (∀ r, nextKmers K s = some r → r.length ≤ 4) ∧
    nextKmers testKmerIndex (strToBytes "ACAT") = some [strToBytes "CATC"] ∧
    nextKmers testKmerIndex (strToBytes "AGTC") =
      some [strToBytes "GTCA", strToBytes "GTCG"] := by
  have hmain : nextKmers K s =
      some (ALPHABET.filterMap (fun b =>
        if (s.drop 1 ++ [b]) ∈ K then some (s.drop 1 ++ [b]) else none)) := by
    simp only [nextKmers, if_neg h, ALPHABET, List.foldl, List.filterMap,
               setLast_append_singleton]
    split_ifs <;> simp
  refine ⟨hmain, ?_, by decide, by decide⟩
  intro r hr
  rw [hmain] at hr
  cases hr
  have : (ALPHABET.filterMap (fun b =>
      if (s.drop 1 ++ [b]) ∈ K then some (s.drop 1 ++ [b]) else none)).length
        ≤ ALPHABET.length :=
    List.length_filterMap_le _ _
  simpa [ALPHABET] using this

/-- Witness for claim C8 at the concrete test index and query `ACAT`. -/
theorem C8_next_kmers_witness :
    (strToBytes "ACAT" ≠ [])
    ∧ nextKmers testKmerIndex (strToBytes "ACAT") = some [strToBytes "CATC"] :=
  ⟨by decide, (C8_next_kmers testKmerIndex (strToBytes "ACAT") (by decide)).2.2.1⟩

/-- Claim C9.  `load_sequences` keeps exactly the contigs of length at
least k, silently skipping shorter ones, and numbers the kept contigs
consecutively from 1 in load order (erroring only past 32767 kept
contigs). -/
theorem C9_load_sequences_numbering (k : Nat) (contigs : List (List Nat))
    (h : (contigs.filter (fun c => k ≤ c.length)).length ≤ 32767) :
    loadSequences k contigs =
      .ok ((List.range' 1 (contigs.filter (fun c => k ≤ c.length)).length).zip
            (contigs.filter (fun c => k ≤ c.length))) := by
  have := loadSeqLoop_spec k contigs 0 (by omega)
  simpa [loadSequences] using this

/-- Witness for claim C9: a 1 bp contig is skipped, the 3 bp contig
becomes sequence 1. -/
theorem C9_load_sequences_numbering_witness :
    loadSequences 2 [[baseA], strToBytes "ACG"] = .ok [(1, strToBytes "ACG")] := by
  have h := C9_load_sequences_numbering 2 [[baseA], strToBytes "ACG"] (by decide)
  rw [h]
  rfl

/-- Claim C10.  `sequence_end_repair` never reaches the panic in
`find_best_match`: each sequence's own start (and end) pattern matches
that sequence itself (sentinel dots match any byte), so both candidate
lists are non-empty; and when the only match is the pattern's own
occurrence, the splice reinstalls the original bytes, leaving the
sequence unchanged. -/
theorem C10_end_repair_never_panics (seqs : List (List Nat)) (n : Nat)
    (hlen : ∀ s ∈ seqs, n ≤ s.length) :
    (sequenceEndRepair seqs n).isSome ∧
    (∀ (allSeqs : List (List Nat)) (s : List Nat),
      allMatches (s.take n) allSeqs = [s.take n] →
      allMatches (s.drop (s.length - n)) allSeqs = [s.drop (s.length - n)] →
      sequenceEndRepairOne allSeqs n s = some s) := by
  constructor
  · unfold sequenceEndRepair
    apply mapOption_isSome
    intro s hsmem
    apply repairOne_isSome
    · apply List.mem_flatten.mpr
      exact ⟨[s, revcomp s], List.mem_map_of_mem _ hsmem, List.mem_cons_self _ _⟩
    · exact hlen s hsmem
  · intro allSeqs s hstart hend
    simp only [sequenceEndRepairOne]
    rw [hstart, hend]
    have h1 : findBestMatch [s.take n] = some (s.take n) := rfl
    have h2 : findBestMatch [s.drop (s.length - n)] = some (s.drop (s.length - n)) := rfl
    rw [h1, h2]
    simp only [Option.some_bind]
    rw [List.take_append_drop n s]
    simp only [Option.map_some']
    rw [List.take_append_drop (s.length - n) s]

/-- Witness for claim C10: repairing a single 4 bp sequence with a 2-byte
overlap succeeds. -/
theorem C10_end_repair_never_panics_witness :
    (sequenceEndRepair [strToBytes "ACGT"] 2).isSome :=
  (C10_end_repair_never_panics [strToBytes "ACGT"] 2 (by decide)).1

end Autocycler
